import Mathlib

/-!
Verification development for the msgvault sync-and-store engine.

The Go sources are shallowly embedded: strings are lists of characters
(Go iterates runes in the relevant loops), machine integers are `Nat`/`Int`
with explicit bounds where the code checks them, fallible code returns
`Option`/`Except`, and effectful code (the sync coordinator) is modelled as
a pure function from an environment of scripted responses to a trace of
store/client effects plus a result.
-/

namespace MsgVault

/-- Character-list model of a Go string (the tokenizer iterates runes). -/
abbrev Str := List Char

/-- The double-quote character (rune 34). -/
def dq : Char := Char.ofNat 34

/-- The single-quote character (rune 39). -/
def sq : Char := Char.ofNat 39

namespace Search

/-- A calendar date. The search package's date helpers only ever produce
midnight-UTC times (`time.Parse` of date-only formats yields UTC, and
`t.UTC()` is then the identity), so a civil date models the `time.Time`
values flowing through `Query`. -/
structure Date where
  year : Int
  month : Int
  day : Int
deriving DecidableEq

/-- Leap-year test, as in Go's `time` package. -/
def isLeap (y : Int) : Bool :=
  y % 4 = 0 && (y % 100 ≠ 0 || y % 400 = 0)

/-- Number of days in a month (Gregorian). -/
def daysInMonth (y m : Int) : Int :=
  if m = 2 then (if isLeap y then 29 else 28)
  else if m = 4 ∨ m = 6 ∨ m = 9 ∨ m = 11 then 30
  else 31

/-- Days since 1970-01-01 of a civil date (Gregorian, proleptic). -/
def dateToDays (y m d : Int) : Int :=
  let y2 := if m ≤ 2 then y - 1 else y
  let era := y2.fdiv 400
  let yoe := y2 - era * 400
  let mp := (m + 9).emod 12
  let doy := (153 * mp + 2).fdiv 5 + d - 1
  let doe := yoe * 365 + yoe.fdiv 4 - yoe.fdiv 100 + doy
  era * 146097 + doe - 719468

/-- Civil date from days since 1970-01-01 (inverse of `dateToDays`). -/
def daysToDate (z : Int) : Date :=
  let z2 := z + 719468
  let era := z2.fdiv 146097
  let doe := z2 - era * 146097
  let yoe := (doe - doe.fdiv 1460 + doe.fdiv 36524 - doe.fdiv 146096).fdiv 365
  let y := yoe + era * 400
  let doy := doe - (365 * yoe + yoe.fdiv 4 - yoe.fdiv 100)
  let mp := (5 * doy + 2).fdiv 153
  let d := doy - (153 * mp + 2).fdiv 5 + 1
  let m := mp + (if mp < 10 then 3 else -9)
  ⟨(if m ≤ 2 then y + 1 else y), m, d⟩

/-- Go's `time.Date` constructor restricted to the date: the month is
normalized into the year, then an out-of-range day is carried as a day
offset. -/
def goDate (y m d : Int) : Date :=
  let m0 := m - 1
  let y1 := y + m0.fdiv 12
  let m1 := m0.emod 12 + 1
  daysToDate (dateToDays y1 m1 1 + (d - 1))

/-- Go's `Time.AddDate(years, months, days)` on dates. -/
def addDate (t : Date) (years months days : Int) : Date :=
  goDate (t.year + years) (t.month + months) (t.day + days)

/-- ASCII whitespace set of `strings.TrimSpace` (the Unicode spaces Go also
trims cannot occur in tokenizer output fed to these helpers). -/
def isSpaceChar (c : Char) : Bool :=
  c = ' ' || c = '\t' || c = '\n' || c = Char.ofNat 11 || c = Char.ofNat 12 || c = '\r'

/-- Model of `strings.TrimSpace`. -/
def trimSpace (s : Str) : Str :=
  ((s.dropWhile isSpaceChar).reverse.dropWhile isSpaceChar).reverse

/-- Model of `strings.ToLower` (ASCII range; the operators and units the
parser compares against are all ASCII). -/
def goToLower (s : Str) : Str := s.map Char.toLower

/-- Model of `strings.ToUpper` (ASCII range). -/
def goToUpper (s : Str) : Str := s.map Char.toUpper

/-- Decimal digits to a number, `digitsToNat [1,2,3 as chars] = 123`. -/
def digitsToNat (s : Str) : Nat :=
  s.foldl (fun a c => a * 10 + (c.toNat - 48)) 0

/-- All characters are ASCII digits. -/
def allDigits (s : Str) : Bool := s.all Char.isDigit

/-- Range-validation performed by `time.Parse`: month 1..12 and day valid
for the month (including leap years). -/
def mkValidDate (y m d : Int) : Option Date :=
  if 1 ≤ m ∧ m ≤ 12 ∧ 1 ≤ d ∧ d ≤ daysInMonth y m then some ⟨y, m, d⟩ else none

/-- One `time.Parse` reference-format attempt with layout
year(4)-month(2)-day(2) separated by `sep` ("2006-01-02" / "2006/01/02":
the zero-padded reference fields demand fixed-width numbers). -/
def parseYMD (sep : Char) (s : Str) : Option Date :=
  match s.splitOn sep with
  | [y, m, d] =>
    if y.length = 4 ∧ allDigits y ∧ m.length = 2 ∧ allDigits m ∧ d.length = 2 ∧ allDigits d then
      mkValidDate (digitsToNat y) (digitsToNat m) (digitsToNat d)
    else none
  | _ => none

/-- Layout "01/02/2006" (month/day/year, fixed widths). -/
def parseMDY (s : Str) : Option Date :=
  match s.splitOn '/' with
  | [m, d, y] =>
    if m.length = 2 ∧ allDigits m ∧ d.length = 2 ∧ allDigits d ∧ y.length = 4 ∧ allDigits y then
      mkValidDate (digitsToNat y) (digitsToNat m) (digitsToNat d)
    else none
  | _ => none

/-- Layout "02/01/2006" (day/month/year, fixed widths). -/
def parseDMY (s : Str) : Option Date :=
  match s.splitOn '/' with
  | [d, m, y] =>
    if d.length = 2 ∧ allDigits d ∧ m.length = 2 ∧ allDigits m ∧ y.length = 4 ∧ allDigits y then
      mkValidDate (digitsToNat y) (digitsToNat m) (digitsToNat d)
    else none
  | _ => none

/-- The search package's `parseDate`: trims, then tries the four layouts in
order; a date-only parse is already UTC so the trailing `t.UTC()` is the
identity. -/
def parseDate (value : Str) : Option Date :=
  let v := trimSpace value
  match parseYMD '-' v with
  | some t => some t
  | none =>
    match parseYMD '/' v with
    | some t => some t
    | none =>
      match parseMDY v with
      | some t => some t
      | none => parseDMY v

/-- The search package's `parseRelativeDate`: lowercase + trim, match the
regexp `(digits)(d|w|m|y)` anchored at both ends, then step back from `now`
with `AddDate`. `time.Now()` is impure, so the clock is threaded in as the
`now` argument. `strconv.Atoi` clamps an out-of-range amount to the maximum
`int` and the code drops the error, which the `min` models. -/
def parseRelativeDate (now : Date) (value : Str) : Option Date :=
  let v := goToLower (trimSpace value)
  match v.getLast? with
  | none => none
  | some u =>
    let digits := v.dropLast
    if digits ≠ [] ∧ allDigits digits ∧ (u = 'd' ∨ u = 'w' ∨ u = 'm' ∨ u = 'y') then
      let amount : Int := Int.ofNat (min (digitsToNat digits) (2 ^ 63 - 1))
      if u = 'd' then some (addDate now 0 0 (-amount))
      else if u = 'w' then some (addDate now 0 0 (-(amount * 7)))
      else if u = 'm' then some (addDate now 0 (-amount) 0)
      else some (addDate now (-amount) 0 0)
    else none

/-- Decimal-literal subset of `strconv.ParseFloat`: optional sign, digits
with at most one point. Exponent, hex-float and inf/nan spellings are not
modelled; no claim depends on size-filter values. -/
def parseDecimal (s : Str) : Option ℚ :=
  let (neg, body) :=
    match s with
    | c :: rest => if c = '-' then (true, rest) else if c = '+' then (false, rest) else (false, s)
    | [] => (false, s)
  match body.splitOn '.' with
  | [ip] =>
    if ip ≠ [] ∧ allDigits ip then
      some ((if neg then -1 else 1) * (digitsToNat ip : ℚ))
    else none
  | [ip, fp] =>
    if (ip ≠ [] ∨ fp ≠ []) ∧ allDigits ip ∧ allDigits fp then
      some ((if neg then -1 else 1) *
        ((digitsToNat ip : ℚ) + (digitsToNat fp : ℚ) / ((10 : ℚ) ^ fp.length)))
    else none
  | _ => none

/-- Go's `int64(float)` conversion on in-range values: truncation toward
zero. -/
def truncToInt (q : ℚ) : Int :=
  if 0 ≤ q then q.floor else q.ceil

/-- Base-10 subset of `strconv.ParseInt(v, 10, 64)`. -/
def parseInt64 (s : Str) : Option Int :=
  let (neg, body) :=
    match s with
    | c :: rest => if c = '-' then (true, rest) else if c = '+' then (false, rest) else (false, s)
    | [] => (false, s)
  if body ≠ [] ∧ allDigits body then
    let n : Int := (if neg then -1 else 1) * Int.ofNat (digitsToNat body)
    if -(2 ^ 63) ≤ n ∧ n ≤ 2 ^ 63 - 1 then some n else none
  else none

/-- Suffix table of `parseSize`. Go iterates the map in random order, but at
most one key can match a given value (the one-letter keys K/M/G never end a
string that also ends in a two-letter key), so a fixed order is faithful. -/
def sizeSuffixes : List (Str × ℚ) :=
  [("KB".toList, 1024), ("MB".toList, 1024 * 1024), ("GB".toList, 1024 * 1024 * 1024),
   ("K".toList, 1024), ("M".toList, 1024 * 1024), ("G".toList, 1024 * 1024 * 1024)]

/-- First suffix of `sizeSuffixes` that ends `v`, with the remainder. -/
def findSizeSuffix (v : Str) : Option (Str × ℚ) :=
  sizeSuffixes.foldl
    (fun acc p =>
      match acc with
      | some r => some r
      | none => if p.1.isSuffixOf v then some (v.take (v.length - p.1.length), p.2) else none)
    none

/-- The search package's `parseSize`: trim + upper, suffix multiplier with a
float multiply truncated to int64, else a plain base-10 integer. -/
def parseSize (value : Str) : Option Int :=
  let v := goToUpper (trimSpace value)
  match findSizeSuffix v with
  | some (numStr, mult) =>
    match parseDecimal numStr with
    | some q => some (truncToInt (q * mult))
    | none => none
  | none => parseInt64 v

/-- The search package's `Query` struct. -/
structure Query where
  textTerms : List Str
  fromAddrs : List Str
  toAddrs : List Str
  ccAddrs : List Str
  bccAddrs : List Str
  subjectTerms : List Str
  labels : List Str
  hasAttachment : Option Bool
  beforeDate : Option Date
  afterDate : Option Date
  largerThan : Option Int
  smallerThan : Option Int
  accountID : Option Int
deriving DecidableEq

/-- The zero `Query` that `Parse` starts from (`q := &Query{}`). -/
def emptyQuery : Query :=
  ⟨[], [], [], [], [], [], [], none, none, none, none, none, none⟩

/-- Tokenizer state: the accumulated tokens, the strings.Builder `current`,
and the four loop-carried flags of `tokenize`. -/
structure TokState where
  tokens : List Str
  current : Str
  inQuotes : Bool
  quoteChar : Char
  afterColon : Bool
  opQuoted : Bool
deriving DecidableEq

/-- Initial tokenizer state (`quoteChar = rune(0)`). -/
def tokInit : TokState :=
  ⟨[], [], false, Char.ofNat 0, false, false⟩

/-- One iteration of the `tokenize` character loop. -/
def tokStep (st : TokState) (c : Char) : TokState :=
  if (c = dq ∨ c = sq) ∧ st.inQuotes = false then
    -- start of a quoted section
    let flush := st.afterColon = false ∧ st.current ≠ []
    { tokens := if flush then st.tokens ++ [st.current] else st.tokens
      current := if flush then [] else (if st.afterColon then st.current ++ [c] else st.current)
      inQuotes := true
      quoteChar := c
      afterColon := false
      opQuoted := st.afterColon }
  else if c = st.quoteChar ∧ st.inQuotes then
    -- end of a quoted section
    if st.opQuoted then
      { tokens := st.tokens ++ [st.current ++ [c]], current := [], inQuotes := false,
        quoteChar := Char.ofNat 0, afterColon := st.afterColon, opQuoted := false }
    else if st.current ≠ [] then
      { tokens := st.tokens ++ [dq :: st.current ++ [dq]], current := [], inQuotes := false,
        quoteChar := Char.ofNat 0, afterColon := st.afterColon, opQuoted := false }
    else
      { st with inQuotes := false, quoteChar := Char.ofNat 0, opQuoted := false }
  else if c = ' ' ∧ st.inQuotes = false then
    { st with
      tokens := if st.current ≠ [] then st.tokens ++ [st.current] else st.tokens
      current := []
      afterColon := false }
  else
    { st with current := st.current ++ [c], afterColon := (c = ':') }

/-- Value of the `afterColon` flag after the tokenizer has written the
characters of `s` into the current token, starting from flag value `d`. -/
def lastColonFlag (s : Str) (d : Bool) : Bool :=
  match s with
  | [] => d
  | c :: rest => lastColonFlag rest (c = ':')

/-- The search package's `tokenize`: run the loop, then flush a trailing
token. -/
def tokenize (queryStr : Str) : List Str :=
  let st := queryStr.foldl tokStep tokInit
  st.tokens ++ (if st.current ≠ [] then [st.current] else [])

/-- `strings.Index(tok, colon)` plus the two slices `tok[:idx]` /
`tok[idx+1:]`: splits at the first colon when one exists. -/
def splitFirstColon : Str → Option (Str × Str)
  | [] => none
  | c :: rest =>
    if c = ':' then some ([], rest)
    else
      match splitFirstColon rest with
      | some (op, value) => some (c :: op, value)
      | none => none

/-- Quote stripping applied to an operator value. Go slices
`value[1 : len(value)-1]` whenever the value both starts and ends with a
double quote; when the value is the single character a double quote, that
slice is `value[1:0]`, which panics — modelled as `none`. -/
def stripValueQuotes (value : Str) : Option Str :=
  if value.head? = some dq ∧ value.getLast? = some dq then
    if 2 ≤ value.length then some (value.drop 1).dropLast else none
  else some value

/-- The `switch op` of `Parse` applied to an already-split and
quote-stripped operator/value; `tok` is the original token, appended
verbatim by the `default` arm. -/
def applyOpValue (now : Date) (q : Query) (op value tok : Str) : Query :=
  if op = "from".toList then { q with fromAddrs := q.fromAddrs ++ [goToLower value] }
  else if op = "to".toList then { q with toAddrs := q.toAddrs ++ [goToLower value] }
  else if op = "cc".toList then { q with ccAddrs := q.ccAddrs ++ [goToLower value] }
  else if op = "bcc".toList then { q with bccAddrs := q.bccAddrs ++ [goToLower value] }
  else if op = "subject".toList then { q with subjectTerms := q.subjectTerms ++ [value] }
  else if op = "label".toList ∨ op = "l".toList then { q with labels := q.labels ++ [value] }
  else if op = "has".toList then
    if goToLower value = "attachment".toList ∨ goToLower value = "attachments".toList then
      { q with hasAttachment := some true }
    else q
  else if op = "before".toList then
    match parseDate value with
    | some t => { q with beforeDate := some t }
    | none => q
  else if op = "after".toList then
    match parseDate value with
    | some t => { q with afterDate := some t }
    | none => q
  else if op = "older_than".toList then
    match parseRelativeDate now value with
    | some t => { q with beforeDate := some t }
    | none => q
  else if op = "newer_than".toList then
    match parseRelativeDate now value with
    | some t => { q with afterDate := some t }
    | none => q
  else if op = "larger".toList then
    match parseSize value with
    | some n => { q with largerThan := some n }
    | none => q
  else if op = "smaller".toList then
    match parseSize value with
    | some n => { q with smallerThan := some n }
    | none => q
  else { q with textTerms := q.textTerms ++ [tok] }

/-- One iteration of the token loop of `Parse`: quoted phrase first, then
operator:value, then a plain text term. `none` models the quote-stripping
panic. -/
def parseToken (now : Date) (q : Query) (tok : Str) : Option Query :=
  if tok.head? = some dq ∧ tok.getLast? = some dq ∧ 2 < tok.length then
    some { q with textTerms := q.textTerms ++ [(tok.drop 1).dropLast] }
  else
    match splitFirstColon tok with
    | some (op, value) =>
      match stripValueQuotes value with
      | some v => some (applyOpValue now q (goToLower op) v tok)
      | none => none
    | none => some { q with textTerms := q.textTerms ++ [tok] }

/-- The search package's `Parse`, with the clock for relative dates made an
explicit argument. `none` models the panic reachable through quote
stripping. -/
def Parse (now : Date) (queryStr : Str) : Option Query :=
  (tokenize queryStr).foldlM (parseToken now) emptyQuery

/-- The operators recognized by the `switch` of `Parse`. -/
def recognizedOps : List Str :=
  ["from".toList, "to".toList, "cc".toList, "bcc".toList, "subject".toList,
   "label".toList, "l".toList, "has".toList, "before".toList, "after".toList,
   "older_than".toList, "newer_than".toList, "larger".toList, "smaller".toList]

end Search

namespace Sync

/-- A row of the `sources` table as `Syncer.Incremental` reads it:
`SyncCursor` is a `sql.NullString`, modelled as an `Option`. -/
structure Source where
  id : Nat
  syncCursor : Option String
deriving DecidableEq

/-- `gmail.Profile`, restricted to the field incremental sync uses. -/
structure Profile where
  historyID : Nat
deriving DecidableEq

/-- Error kinds of the gmail client: `NotFoundError` (matched with
`errors.As`) against everything else. -/
inductive GmailErr where
  | notFound
  | other (msg : String)
deriving DecidableEq

/-- The `err.Error()` string handed to `FailSync`. -/
def GmailErr.message : GmailErr → String
  | .notFound => "not found"
  | .other msg => msg

/-- `gmail.MessageID`. -/
structure MessageID where
  id : String
  threadID : String
deriving DecidableEq

/-- `gmail.HistoryMessage`. -/
structure HistoryMessage where
  message : MessageID
deriving DecidableEq

/-- `gmail.HistoryLabelChange`. -/
structure HistoryLabelChange where
  message : MessageID
  labelIDs : List String
deriving DecidableEq

/-- `gmail.HistoryRecord`. -/
structure HistoryRecord where
  messagesAdded : List HistoryMessage
  messagesDeleted : List HistoryMessage
  labelsAdded : List HistoryLabelChange
  labelsRemoved : List HistoryLabelChange
deriving DecidableEq

/-- `gmail.HistoryResponse`, restricted to the fields incremental sync
uses. -/
structure HistoryResponse where
  history : List HistoryRecord
  nextPageToken : String
deriving DecidableEq

/-- `gmail.RawMessage`, restricted to the fields incremental sync uses;
`rawLen` models `len(raw.Raw)`. -/
structure RawMessage where
  id : String
  threadID : String
  labelIDs : List String
  rawLen : Nat
deriving DecidableEq

/-- `store.Checkpoint` as incremental sync fills it. -/
structure Checkpoint where
  pageToken : String
  messagesProcessed : Nat
  messagesAdded : Nat
  messagesUpdated : Nat
  errorsCount : Nat
deriving DecidableEq

/-- The zero checkpoint (`&store.Checkpoint{}`). -/
def Checkpoint.init : Checkpoint := ⟨"", 0, 0, 0, 0⟩

/-- Environment of scripted responses for one run of
`Syncer.Incremental`. Client and store reads are response functions;
`historyPages` scripts the successive `ListHistory` replies in call order.
`ingestResult` stands in for `Syncer.ingestMessage` (its implementation is
outside the sources under verification), keyed by message id. Store
mutations whose errors the code only logs are modelled as always
succeeding, except `MarkMessageDeleted` whose failure feeds the error
counter. -/
structure Env where
  source : Except String (Option Source)
  startSync : Except String Nat
  profile : Except GmailErr Profile
  syncLabels : Except GmailErr (String → Option Nat)
  historyPages : List (Except GmailErr HistoryResponse)
  getRaw : String → Except GmailErr RawMessage
  ingestResult : String → Except String Unit
  msgExists : String → Option Nat
  markDeletedOk : String → Bool

/-- Store mutations and client calls recorded by the model, in program
order. -/
inductive Eff where
  | startSync (sourceID : Nat) (kind : String)
  | failSync (syncID : Nat) (reason : String)
  | completeSync (syncID : Nat) (finalCursor : String)
  | updateSourceSyncCursor (sourceID : Nat) (cursor : String)
  | updateSyncCheckpoint (syncID : Nat) (cp : Checkpoint)
  | getProfile
  | syncLabels
  | listHistory (startID : Nat) (pageToken : String)
  | getMessageRaw (id : String)
  | ingest (sourceID : Nat) (msgID : String) (threadID : String)
  | markMessageDeleted (sourceID : Nat) (msgID : String)
  | replaceMessageLabels (internalID : Nat) (labelIDs : List Nat)
deriving DecidableEq

/-- Errors returned by `Syncer.Incremental`. Each constructor models one
`return nil, err` site; `historyExpired` is the distinguished
`ErrHistoryExpired` sentinel, `noHistoryID` the
"no history ID ... - run full sync first" error. `pagesExhausted` is a
model artifact: the scripted `ListHistory` responses ran out while the page
loop wanted another. -/
inductive SyncErr where
  | getSource (msg : String)
  | noSource (email : String)
  | noHistoryID (email : String)
  | invalidHistoryID (cursor : String)
  | startSync (msg : String)
  | getProfile (e : GmailErr)
  | syncLabels (e : GmailErr)
  | historyExpired
  | listHistory (e : GmailErr)
  | pagesExhausted
deriving DecidableEq

/-- `gmail.SyncSummary`, restricted to the fields incremental sync sets
(times dropped). -/
structure SyncSummary where
  messagesFound : Nat
  messagesAdded : Nat
  messagesUpdated : Nat
  bytesDownloaded : Nat
  errors : Nat
  finalHistoryID : Nat
deriving DecidableEq

/-- `strconv.ParseUint(s, 10, 64)`: base-10 digits only, value below
`2 ^ 64`. -/
def parseUint64 (s : String) : Option Nat :=
  let cs := s.toList
  if cs ≠ [] ∧ cs.all Char.isDigit then
    let n := cs.foldl (fun a c => a * 10 + (c.toNat - 48)) 0
    if n < 2 ^ 64 then some n else none
  else none

/-- `Syncer.handleLabelChange`: look the message up; a missing message is
fetched and ingested only when labels were added (removal is a no-op); an
existing message is re-fetched and its full label set replaced. The
returned flag mirrors the Go `error` result (the caller only logs it). -/
def handleLabelChange (env : Env) (sourceID : Nat) (messageID threadID : String)
    (gmailLabelIDs : List String) (labelMap : String → Option Nat) (isAdd : Bool) :
    List Eff × Bool :=
  match env.msgExists messageID with
  | none =>
    if isAdd then
      match env.getRaw messageID with
      | .error _ => ([.getMessageRaw messageID], false)
      | .ok raw =>
        ([.getMessageRaw messageID, .ingest sourceID raw.id threadID],
         match env.ingestResult raw.id with
         | .ok _ => true
         | .error _ => false)
    else
      ([], true)
  | some internalID =>
    match env.getRaw messageID with
    | .error _ => ([.getMessageRaw messageID], false)
    | .ok raw =>
      let labelIDs := raw.labelIDs.filterMap labelMap
      ([.getMessageRaw messageID, .replaceMessageLabels internalID labelIDs], true)

/-- The per-record body of the history loop: added messages are fetched and
ingested (404 skips silently, other failures count as errors), deletions
are soft-marked, label changes go through `handleLabelChange`, and the
processed counter advances. Returns the new checkpoint and downloaded
bytes. -/
def processRecord (env : Env) (sourceID : Nat) (labelMap : String → Option Nat)
    (acc : List Eff × Checkpoint × Nat) (record : HistoryRecord) :
    List Eff × Checkpoint × Nat :=
  let (effs0, cp0, bytes0) := acc
  -- handle added messages
  let (effs1, cp1, bytes1) :=
    record.messagesAdded.foldl
      (fun (a : List Eff × Checkpoint × Nat) added =>
        let (effs, cp, bytes) := a
        match env.getRaw added.message.id with
        | .error .notFound => (effs ++ [.getMessageRaw added.message.id], cp, bytes)
        | .error (.other _) =>
          (effs ++ [.getMessageRaw added.message.id],
           { cp with errorsCount := cp.errorsCount + 1 }, bytes)
        | .ok raw =>
          match env.ingestResult raw.id with
          | .error _ =>
            (effs ++ [.getMessageRaw added.message.id, .ingest sourceID raw.id added.message.threadID],
             { cp with errorsCount := cp.errorsCount + 1 }, bytes)
          | .ok _ =>
            (effs ++ [.getMessageRaw added.message.id, .ingest sourceID raw.id added.message.threadID],
             { cp with messagesAdded := cp.messagesAdded + 1 }, bytes + raw.rawLen))
      (effs0, cp0, bytes0)
  -- handle deleted messages
  let (effs2, cp2) :=
    record.messagesDeleted.foldl
      (fun (a : List Eff × Checkpoint) deleted =>
        let (effs, cp) := a
        (effs ++ [.markMessageDeleted sourceID deleted.message.id],
         if env.markDeletedOk deleted.message.id then cp
         else { cp with errorsCount := cp.errorsCount + 1 }))
      (effs1, cp1)
  -- handle label changes (errors are only logged)
  let effs3 :=
    record.labelsAdded.foldl
      (fun effs change =>
        effs ++ (handleLabelChange env sourceID change.message.id change.message.threadID
          change.labelIDs labelMap true).1)
      effs2
  let effs4 :=
    record.labelsRemoved.foldl
      (fun effs change =>
        effs ++ (handleLabelChange env sourceID change.message.id change.message.threadID
          change.labelIDs labelMap false).1)
      effs3
  (effs4, { cp2 with messagesProcessed := cp2.messagesProcessed + 1 }, bytes1)

/-- The `ListHistory` page loop of `Syncer.Incremental`, consuming the
scripted responses in order. A `NotFoundError` fails the run with reason
"history too old" and surfaces `historyExpired`; any other error fails the
run with its message; after each page the checkpoint (with the next page
token) is saved, and an empty next token ends the loop. -/
def pageLoop (env : Env) (sourceID syncID : Nat) (labelMap : String → Option Nat)
    (startHID : Nat) :
    List (Except GmailErr HistoryResponse) → String → Checkpoint → Nat →
    List Eff × Except SyncErr (Checkpoint × Nat)
  | [], pageToken, _, _ =>
    ([.listHistory startHID pageToken], .error .pagesExhausted)
  | resp :: rest, pageToken, cp, bytes =>
    match resp with
    | .error .notFound =>
      ([.listHistory startHID pageToken, .failSync syncID "history too old"],
       .error .historyExpired)
    | .error (.other msg) =>
      ([.listHistory startHID pageToken, .failSync syncID (GmailErr.other msg).message],
       .error (.listHistory (.other msg)))
    | .ok page =>
      let pr := page.history.foldl (processRecord env sourceID labelMap) ([], cp, bytes)
      let cp2 := { pr.2.1 with pageToken := page.nextPageToken }
      let effsPage := Eff.listHistory startHID pageToken :: pr.1 ++
        [.updateSyncCheckpoint syncID cp2]
      if page.nextPageToken = "" then
        (effsPage, .ok (cp2, pr.2.2))
      else
        let rec2 :=
          pageLoop env sourceID syncID labelMap startHID rest page.nextPageToken cp2 pr.2.2
        (effsPage ++ rec2.1, rec2.2)

/-- `Syncer.Incremental`: requires an existing source with a non-empty
cursor, starts a run, short-circuits (complete, no-op) when the cursor is
already at or past the profile's history id, otherwise syncs labels and
drives the history page loop, finishing with cursor update and run
completion. Returns the recorded effects and the summary or error. -/
def incremental (env : Env) (email : String) : List Eff × Except SyncErr SyncSummary :=
  match env.source with
  | .error msg => ([], .error (.getSource msg))
  | .ok none => ([], .error (.noSource email))
  | .ok (some source) =>
    if source.syncCursor = none ∨ source.syncCursor = some "" then
      ([], .error (.noHistoryID email))
    else
      match source.syncCursor.getD "" |> parseUint64 with
      | none => ([], .error (.invalidHistoryID (source.syncCursor.getD "")))
      | some startHistoryID =>
        match env.startSync with
        | .error msg => ([.startSync source.id "incremental"], .error (.startSync msg))
        | .ok syncID =>
          let effs0 := [Eff.startSync source.id "incremental"]
          match env.profile with
          | .error e =>
            (effs0 ++ [.getProfile, .failSync syncID e.message], .error (.getProfile e))
          | .ok profile =>
            if profile.historyID ≤ startHistoryID then
              (effs0 ++ [.getProfile, .completeSync syncID (toString profile.historyID)],
               .ok { messagesFound := 0, messagesAdded := 0, messagesUpdated := 0,
                     bytesDownloaded := 0, errors := 0, finalHistoryID := profile.historyID })
            else
              match env.syncLabels with
              | .error e =>
                (effs0 ++ [.getProfile, .syncLabels, .failSync syncID e.message],
                 .error (.syncLabels e))
              | .ok labelMap =>
                let lp :=
                  pageLoop env source.id syncID labelMap startHistoryID
                    env.historyPages "" Checkpoint.init 0
                let effs1 := effs0 ++ [Eff.getProfile, Eff.syncLabels] ++ lp.1
                match lp.2 with
                | .error e => (effs1, .error e)
                | .ok res =>
                  let hidStr := toString profile.historyID
                  (effs1 ++ [.updateSourceSyncCursor source.id hidStr,
                             .completeSync syncID hidStr],
                   .ok { messagesFound := res.1.messagesProcessed,
                         messagesAdded := res.1.messagesAdded,
                         messagesUpdated := res.1.messagesUpdated,
                         bytesDownloaded := res.2,
                         errors := res.1.errorsCount,
                         finalHistoryID := profile.historyID })

/-- The `ListHistory` error the page loop would hit, if any: scripted
responses are consumed in order, and a page with an empty next token ends
the loop before later entries are reached. -/
def firstHistoryError : List (Except GmailErr HistoryResponse) → Option GmailErr
  | [] => none
  | .error e :: _ => some e
  | .ok page :: rest => if page.nextPageToken = "" then none else firstHistoryError rest

end Sync

namespace Deletion

/-- Modelled from the spec: the deletion package's manifest statuses
(`executor.go`/`manifest.go` are not in the source tree; only their tests
are). Spec §4.7: status ∈ pending, in_progress, completed, failed. -/
inductive Status where
  | pending
  | inProgress
  | completed
  | failed
deriving DecidableEq

/-- Modelled from the spec: outcome of one per-id `trash_message` /
`delete_message` call as the executor classifies it — success, a
`NotFoundError`, or any other error. -/
inductive ApiResult where
  | ok
  | notFound
  | err (msg : String)
deriving DecidableEq

/-- Modelled from the spec: the execution record of a manifest
(`succeeded`, `failed`, `last_processed_index`, `failed_ids`). -/
structure Execution where
  succeeded : Nat
  failed : Nat
  lastProcessedIndex : Nat
  failedIds : List String
deriving DecidableEq

/-- The zero execution record of a freshly started run. -/
def Execution.init : Execution := ⟨0, 0, 0, []⟩

/-- Modelled from the spec: one iteration of `Execute`'s id loop. Spec
§4.7: `NotFoundError` counts as success (idempotent); other errors
increment the failure counter and append to `failed_ids`. -/
def execStep (remote : String → ApiResult) (st : Execution) (id : String) : Execution :=
  match remote id with
  | .ok =>
    { st with succeeded := st.succeeded + 1, lastProcessedIndex := st.lastProcessedIndex + 1 }
  | .notFound =>
    { st with succeeded := st.succeeded + 1, lastProcessedIndex := st.lastProcessedIndex + 1 }
  | .err _ =>
    { st with failed := st.failed + 1
              failedIds := st.failedIds ++ [id]
              lastProcessedIndex := st.lastProcessedIndex + 1 }

/-- Modelled from the spec: the id loop of `Execute` over the ids not yet
processed, starting from an execution record (zero for a fresh run, the
saved one on resume). -/
def executeIds (remote : String → ApiResult) (ids : List String) (st : Execution) : Execution :=
  ids.foldl (execStep remote) st

/-- Modelled from the spec: the final status transition of `Execute`. Spec
§4.7: on completion, if ≥ 1 succeeded → completed, else failed. -/
def finalStatus (st : Execution) : Status :=
  if 1 ≤ st.succeeded then .completed else .failed

/-- Modelled from the spec: an uncancelled `Execute` run over a pending
manifest's `remote_ids` against a remote whose per-id outcome is `remote`:
iterate all ids from index 0 with zero counters, then transition the
manifest. Returns the final execution record and status. -/
def execute (remote : String → ApiResult) (remoteIds : List String) : Execution × Status :=
  let st := executeIds remote remoteIds Execution.init
  (st, finalStatus st)

/-- An outcome the executor counts as success: a clean call or a
`NotFoundError`. -/
def ApiResult.isSuccess : ApiResult → Bool
  | .ok => true
  | .notFound => true
  | .err _ => false

end Deletion

namespace RateLimit

/-- Modelled from the spec: the rate limiter's state (`ratelimit.go` is not
in the source tree; only its test is). Spec §4.1: a token bucket with
`tokens`, `refill_rate`, and the adaptive-throttle expiry `throttledUntil`
(an instant, modelled as `Int` nanoseconds). -/
structure RateLimiter where
  tokens : ℚ
  refillRate : ℚ
  throttledUntil : Int
deriving DecidableEq

/-- Default refill rate (tokens/sec) at the 5 QPS default. -/
def DefaultRefillRate : ℚ := 250

/-- Modelled from the spec: the refill-rate floor corresponding to the
minimum QPS (the exact constant is not in the source tree; any positive
floor satisfies "halves refill_rate (floor at min QPS)"). -/
def minRefillRate : ℚ := 50

/-- Modelled from the spec: `Throttle(d)` at instant `now`. Spec §4.1:
forces zero tokens, halves the refill rate (with a floor), and never
shortens an existing throttle window — the expiry moves only if
`now + d > current_until`. -/
def throttle (rl : RateLimiter) (now d : Int) : RateLimiter :=
  { tokens := 0
    refillRate := max (rl.refillRate / 2) minRefillRate
    throttledUntil := if rl.throttledUntil < now + d then now + d else rl.throttledUntil }

/-- A sequence of `Throttle` calls, each with its own call instant and
duration, applied in order. -/
def throttleAll (rl : RateLimiter) (calls : List (Int × Int)) : RateLimiter :=
  calls.foldl (fun r c => throttle r c.1 c.2) rl

end RateLimit

namespace Mime

/-- Modelled from the spec: a `time.Time` as the mime package's date parser
produces it (`parse.go` is not in the source tree; only its test is) —
an instant (Unix seconds) plus a zone offset in minutes; `IsZero` compares
against Go's zero time. -/
structure MTime where
  unix : Int
  offsetMinutes : Int
deriving DecidableEq

/-- Unix seconds of Go's zero `time.Time` (January 1, year 1, 00:00:00
UTC). -/
def goZeroUnix : Int := -62135596800

/-- Go's zero `time.Time`. -/
def zeroTime : MTime := ⟨goZeroUnix, 0⟩

/-- `t.UTC()`: same instant, UTC zone. -/
def toUTC (t : MTime) : MTime := ⟨t.unix, 0⟩

/-- First format of an ordered list that parses the string. -/
def firstParse (formats : List (String → Option MTime)) (s : String) : Option MTime :=
  match formats with
  | [] => none
  | f :: rest =>
    match f s with
    | some t => some t
    | none => firstParse rest s

/-- Modelled from the spec: the mime package's `parseDate`. Spec §4.3:
tries a fixed ordered list of formats (RFC 2822 variants, ISO 8601,
SQL-like — abstracted here as the `formats` argument); every parsed time is
normalized to UTC; an unparseable date returns the zero time without
error. -/
def parseDate (formats : List (String → Option MTime)) (s : String) : MTime :=
  match firstParse formats s with
  | some t => toUTC t
  | none => zeroTime

/-- Modelled from the spec: the `sent_at` derivation of the ingestion
pipeline. Spec §4.5 step 4: `sent_at = parsed_date ?? internal_date` — the
parsed Date header when it is non-zero, the message's server
`internal_date` otherwise. -/
def sentAtOf (formats : List (String → Option MTime)) (dateHeader : String)
    (internalDate : MTime) : MTime :=
  let d := parseDate formats dateHeader
  if d = zeroTime then internalDate else d

end Mime

/-- A fixed clock value for evaluating `Parse` on concrete queries (the
clock only feeds `older_than:`/`newer_than:`). -/
def clock0 : Search.Date := ⟨2024, 1, 1⟩

namespace Sync

/-- A concrete environment whose cursor is already at the profile's history
id. -/
def envUpToDate : Env :=
  { source := .ok (some ⟨1, some "12345"⟩)
    startSync := .ok 7
    profile := .ok ⟨12345⟩
    syncLabels := .ok (fun _ => none)
    historyPages := []
    getRaw := fun _ => .error .notFound
    ingestResult := fun _ => .ok ()
    msgExists := fun _ => none
    markDeletedOk := fun _ => true }

/-- A concrete environment whose source has no sync cursor. -/
def envNoCursor : Env := { envUpToDate with source := .ok (some ⟨1, none⟩) }

/-- A concrete environment where the first `ListHistory` reply is a 404. -/
def envExpired : Env :=
  { envUpToDate with
    source := .ok (some ⟨1, some "1000"⟩)
    profile := .ok ⟨12350⟩
    historyPages := [.error .notFound] }

/-- A concrete environment where message "m1" exists locally (internal id
5) and a raw fetch returns labels L1/L2. -/
def envLblExists : Env :=
  { envUpToDate with
    msgExists := fun i => if i = "m1" then some 5 else none
    getRaw := fun i => .ok ⟨i, "t9", ["L1", "L2"], 3⟩ }

/-- A concrete label map taking L1 to internal id 10 and dropping
everything else. -/
def lblMap0 : String → Option Nat := fun l => if l = "L1" then some 10 else none

end Sync

namespace Mime

/-- A concrete one-entry format list: "D" parses to instant 1000 at zone
offset -420 minutes. -/
def fmts0 : List (String → Option MTime) :=
  [fun s => if s = "D" then some ⟨1000, -420⟩ else none]

end Mime

namespace Search

theorem foldl_tokStep_quoted (s : Str) : ∀ st : TokState,
    st.inQuotes = true → st.quoteChar = dq → dq ∉ s →
    s.foldl tokStep st =
      { st with current := st.current ++ s, afterColon := lastColonFlag s st.afterColon } := by
  induction s with
  | nil => intro st _ _ _; simp [lastColonFlag]
  | cons c rest ih =>
    intro st h1 h2 h3
    have hc : c ≠ dq := fun h => h3 (h ▸ List.mem_cons_self c rest)
    have hrest : dq ∉ rest := fun h => h3 (List.mem_cons_of_mem _ h)
    have hstep : tokStep st c =
        { st with current := st.current ++ [c], afterColon := (c = ':') } := by
      simp [tokStep, h1, h2, hc]
    rw [List.foldl_cons, hstep,
      ih { st with current := st.current ++ [c], afterColon := (c = ':') } h1 h2 hrest]
    simp [lastColonFlag]

theorem foldl_tokStep_plain (s : Str) : ∀ st : TokState,
    st.inQuotes = false →
    (∀ c ∈ s, c ≠ dq ∧ c ≠ sq ∧ c ≠ ' ') →
    s.foldl tokStep st =
      { st with current := st.current ++ s, afterColon := lastColonFlag s st.afterColon } := by
  induction s with
  | nil => intro st _ _; simp [lastColonFlag]
  | cons c rest ih =>
    intro st h1 h2
    obtain ⟨hcd, hcs, hcsp⟩ := h2 c (List.mem_cons_self c rest)
    have hrest : ∀ x ∈ rest, x ≠ dq ∧ x ≠ sq ∧ x ≠ ' ' :=
      fun x hx => h2 x (List.mem_cons_of_mem _ hx)
    have hstep : tokStep st c =
        { st with current := st.current ++ [c], afterColon := (c = ':') } := by
      simp [tokStep, h1, hcd, hcs, hcsp]
    rw [List.foldl_cons, hstep,
      ih { st with current := st.current ++ [c], afterColon := (c = ':') } h1 hrest]
    simp [lastColonFlag]

theorem lastColonFlag_no_colon (s : Str) : ∀ d : Bool, s ≠ [] → ':' ∉ s →
    lastColonFlag s d = false := by
  induction s with
  | nil => intro d h _; exact absurd rfl h
  | cons c rest ih =>
    intro d _ hmem
    have hc : c ≠ ':' := fun h => hmem (h ▸ List.mem_cons_self c rest)
    cases rest with
    | nil => simp [lastColonFlag, hc]
    | cons x xs =>
      exact ih (c = ':') (by simp) (fun h => hmem (List.mem_cons_of_mem _ h))

theorem tokenize_plain (s : Str) (hne : s ≠ [])
    (hch : ∀ c ∈ s, c ≠ dq ∧ c ≠ sq ∧ c ≠ ' ') : tokenize s = [s] := by
  unfold tokenize
  rw [foldl_tokStep_plain s tokInit rfl hch]
  simp [tokInit, hne]

theorem tokenize_quoted_phrase (p : Str) (hne : p ≠ []) (hp : dq ∉ p) :
    tokenize (dq :: p ++ [dq]) = [dq :: p ++ [dq]] := by
  unfold tokenize
  have h1 : tokStep tokInit dq = ⟨[], [], true, dq, false, false⟩ := by
    simp [tokStep, tokInit]
  rw [show dq :: p ++ [dq] = dq :: (p ++ [dq]) from rfl, List.foldl_cons, h1,
    List.foldl_append,
    foldl_tokStep_quoted p ⟨[], [], true, dq, false, false⟩ rfl rfl hp]
  simp [tokStep, hne]

theorem tokenize_op_quoted (op v : Str) (hop : op ≠ [])
    (hopch : ∀ c ∈ op, c ≠ dq ∧ c ≠ sq ∧ c ≠ ' ') (hopc : ':' ∉ op) (hv : dq ∉ v) :
    tokenize (op ++ ':' :: dq :: v ++ [dq]) = [op ++ ':' :: dq :: v ++ [dq]] := by
  unfold tokenize
  simp only [List.foldl_append, List.foldl_cons, List.foldl_nil]
  rw [foldl_tokStep_plain op tokInit rfl hopch,
    lastColonFlag_no_colon op tokInit.afterColon hop hopc]
  have hc1 : ¬(':' : Char) = dq := by decide
  have hc2 : ¬(':' : Char) = sq := by decide
  have hc3 : ¬(':' : Char) = ' ' := by decide
  set stA : TokState := { tokInit with current := tokInit.current ++ op, afterColon := false }
    with hstA
  have hcolon : tokStep stA ':' =
      { stA with current := stA.current ++ [':'], afterColon := true } := by
    simp [tokStep, hstA, tokInit, hc1, hc2, hc3]
  have hdq : tokStep { stA with current := stA.current ++ [':'], afterColon := true } dq =
      { stA with current := stA.current ++ [':'] ++ [dq], inQuotes := true, quoteChar := dq,
                 afterColon := false, opQuoted := true } := by
    simp [tokStep, hstA, tokInit]
  rw [hcolon, hdq, foldl_tokStep_quoted v _ rfl rfl hv]
  rw [show tokStep
      { stA with current := stA.current ++ [':'] ++ [dq] ++ v, inQuotes := true, quoteChar := dq,
                 afterColon := lastColonFlag v false, opQuoted := true } dq =
      { stA with tokens := stA.tokens ++ [stA.current ++ [':'] ++ [dq] ++ v ++ [dq]],
                 current := [], inQuotes := false, quoteChar := Char.ofNat 0,
                 afterColon := lastColonFlag v false, opQuoted := false } from by
    simp [tokStep]]
  simp [hstA, tokInit]

theorem Parse_single_token (now : Date) (s tok : Str) (h : tokenize s = [tok]) :
    Parse now s = parseToken now emptyQuery tok := by
  unfold Parse
  rw [h]
  cases hpt : parseToken now emptyQuery tok <;> simp [List.foldlM, hpt]

theorem parseToken_quoted_phrase (now : Date) (q : Query) (p : Str) (hne : p ≠ []) :
    parseToken now q (dq :: p ++ [dq]) =
      some { q with textTerms := q.textTerms ++ [p] } := by
  unfold parseToken
  rw [if_pos, show ((dq :: p ++ [dq]).drop 1).dropLast = p from by
    simp [List.dropLast_concat]]
  refine ⟨rfl, ?_, ?_⟩
  · rw [show dq :: p ++ [dq] = (dq :: p) ++ [dq] from rfl, List.getLast?_concat]
  · have : (dq :: p ++ [dq]).length = p.length + 2 := by simp
    have hlen : 0 < p.length := List.length_pos.mpr hne
    omega

theorem splitFirstColon_append (op value : Str) (hop : ':' ∉ op) :
    splitFirstColon (op ++ ':' :: value) = some (op, value) := by
  induction op with
  | nil => simp [splitFirstColon]
  | cons c rest ih =>
    have hc : c ≠ ':' := fun h => hop (h ▸ List.mem_cons_self c rest)
    have hrest : ':' ∉ rest := fun h => hop (List.mem_cons_of_mem _ h)
    simp [splitFirstColon, hc, ih hrest]

theorem stripValueQuotes_no_quote (value : Str) (h : dq ∉ value) :
    stripValueQuotes value = some value := by
  unfold stripValueQuotes
  cases value with
  | nil => simp
  | cons c rest =>
    have hc : c ≠ dq := fun hh => h (hh ▸ List.mem_cons_self c rest)
    simp [hc]

theorem stripValueQuotes_quoted (v : Str) :
    stripValueQuotes (dq :: (v ++ [dq])) = some v := by
  unfold stripValueQuotes
  rw [if_pos, if_pos]
  · simp [List.dropLast_concat]
  · simp
  · constructor
    · rfl
    · rw [show dq :: (v ++ [dq]) = (dq :: v) ++ [dq] from rfl, List.getLast?_concat]

theorem applyOpValue_default (now : Date) (q : Query) (op value tok : Str)
    (h : op ∉ recognizedOps) :
    applyOpValue now q op value tok = { q with textTerms := q.textTerms ++ [tok] } := by
  simp only [recognizedOps, List.mem_cons, List.not_mem_nil, or_false, not_or] at h
  obtain ⟨h1, h2, h3, h4, h5, h6, h7, h8, h9, h10, h11, h12, h13, h14⟩ := h
  unfold applyOpValue
  rw [if_neg h1, if_neg h2, if_neg h3, if_neg h4, if_neg h5, if_neg (not_or.mpr ⟨h6, h7⟩),
    if_neg h8, if_neg h9, if_neg h10, if_neg h11, if_neg h12, if_neg h13, if_neg h14]

theorem parseToken_unknown_op (now : Date) (q : Query) (op value : Str)
    (hopc : ':' ∉ op) (hhead : (op ++ ':' :: value).head? ≠ some dq)
    (hrec : goToLower op ∉ recognizedOps) (hval : value ≠ [dq]) :
    parseToken now q (op ++ ':' :: value) =
      some { q with textTerms := q.textTerms ++ [op ++ ':' :: value] } := by
  have hstrip : ∃ v, stripValueQuotes value = some v := by
    unfold stripValueQuotes
    by_cases hh : value.head? = some dq ∧ value.getLast? = some dq
    · rw [if_pos hh]
      by_cases hlen : 2 ≤ value.length
      · exact ⟨_, by rw [if_pos hlen]⟩
      · exfalso
        apply hval
        cases value with
        | nil => simp at hh
        | cons c rest =>
          cases rest with
          | nil =>
            simp only [List.head?_cons, Option.some.injEq] at hh
            rw [hh.1]
          | cons x xs => simp at hlen
    · exact ⟨_, by rw [if_neg hh]⟩
  obtain ⟨v, hv⟩ := hstrip
  unfold parseToken
  rw [if_neg (fun hq => hhead hq.1), splitFirstColon_append op value hopc]
  simp only [hv, applyOpValue_default now q (goToLower op) v (op ++ ':' :: value) hrec]

/-- Claim C1, counterexample: `Parse` does not recognize `in:<account>` as
a typed account filter — on the query "in:work" the whole token lands
unchanged in `TextTerms` and `Query.AccountID` stays unset. -/
theorem claim_C1_counterexample :
    (Parse clock0 "in:work".toList).map Query.accountID = some none ∧
    (Parse clock0 "in:work".toList).map Query.textTerms = some ["in:work".toList] :=
  ⟨rfl, rfl⟩

/-- Claim C1 (amended): `in:` is not among the operators `Parse` handles;
for every token `in:<account>` (account nonempty, without quotes or
spaces), `Parse` treats the whole token as a plain text term and never sets
`Query.AccountID`. -/
theorem claim_C1 (now : Date) (account : Str) (hne : account ≠ [])
    (hch : ∀ c ∈ account, c ≠ dq ∧ c ≠ sq ∧ c ≠ ' ') :
    Parse now ("in:".toList ++ account) =
      some { emptyQuery with textTerms := ["in:".toList ++ account] } := by
  have hch2 : ∀ c ∈ ("in:".toList ++ account), c ≠ dq ∧ c ≠ sq ∧ c ≠ ' ' := by
    intro c hc
    rw [List.mem_append] at hc
    rcases hc with hc | hc
    · fin_cases hc <;> exact ⟨by decide, by decide, by decide⟩
    · exact hch c hc
  have hne2 : ("in:".toList ++ account) ≠ [] := by simp
  rw [Parse_single_token now _ _ (tokenize_plain _ hne2 hch2)]
  have hval : account ≠ [dq] := by
    intro h
    exact (hch dq (h ▸ List.mem_cons_self dq [])).1 rfl
  have heq : "in:".toList ++ account = "in".toList ++ ':' :: account := rfl
  have hhead : ("in".toList ++ ':' :: account).head? ≠ some dq := by
    intro h
    rw [show ("in".toList ++ ':' :: account) = 'i' :: 'n' :: ':' :: account from rfl] at h
    simp only [List.head?_cons, Option.some.injEq] at h
    exact absurd h (by decide)
  rw [heq, parseToken_unknown_op now emptyQuery "in".toList account (by decide)
    hhead (by decide) hval]
  simp [emptyQuery]

/-- Claim C1 witness: the amended statement at the concrete account
"work". -/
theorem claim_C1_witness :
    Parse clock0 ("in:".toList ++ "work".toList) =
      some { emptyQuery with textTerms := ["in:".toList ++ "work".toList] } :=
  claim_C1 clock0 "work".toList (by decide) (by decide)

theorem tokenize_plain_then_quoted (s1 p : Str) (hs1 : s1 ≠ [])
    (hch : ∀ c ∈ s1, c ≠ dq ∧ c ≠ sq ∧ c ≠ ' ') (hpne : p ≠ []) (hp : dq ∉ p) :
    tokenize (s1 ++ ' ' :: dq :: p ++ [dq]) = [s1, dq :: p ++ [dq]] := by
  unfold tokenize
  simp only [List.foldl_append, List.foldl_cons, List.foldl_nil]
  rw [foldl_tokStep_plain s1 tokInit rfl hch]
  rw [show tokStep { tokInit with current := tokInit.current ++ s1, afterColon := lastColonFlag s1 tokInit.afterColon } ' ' =
      ⟨[s1], [], false, Char.ofNat 0, false, false⟩ from by
    simp [tokStep, tokInit, hs1, show ¬(' ' = dq) from by decide,
      show ¬(' ' = sq) from by decide]]
  rw [show tokStep ⟨[s1], [], false, Char.ofNat 0, false, false⟩ dq =
      ⟨[s1], [], true, dq, false, false⟩ from by
    simp [tokStep]]
  rw [foldl_tokStep_quoted p ⟨[s1], [], true, dq, false, false⟩ rfl rfl hp]
  rw [show tokStep { (⟨[s1], [], true, dq, false, false⟩ : TokState) with current := ([] : Str) ++ p, afterColon := lastColonFlag p false } dq =
      ⟨[s1] ++ [dq :: p ++ [dq]], [], false, Char.ofNat 0, lastColonFlag p false,
        false⟩ from by
    simp [tokStep, hpne]]
  simp

/-- Claim C6: a standalone quoted phrase (which may contain colons and
spaces) is parsed as one text term with the quotes stripped, never as an
operator:value pair — both when the phrase is the whole query and when it
follows another token in a larger query; and in a token `op:"value"` the
quotes apply only to the value — the token survives tokenization whole, and
`Parse` applies the operator `op` to the quote-stripped value (which may
contain colons and spaces). -/
theorem claim_C6 :
    (∀ (now : Date) (p : Str), p ≠ [] → dq ∉ p →
        Parse now (dq :: p ++ [dq]) =
          some { emptyQuery with textTerms := [p] }) ∧
    (∀ (now : Date) (s1 p : Str), s1 ≠ [] →
        (∀ c ∈ s1, c ≠ dq ∧ c ≠ sq ∧ c ≠ ' ') → p ≠ [] → dq ∉ p →
        Parse now (s1 ++ ' ' :: dq :: p ++ [dq]) =
          (parseToken now emptyQuery s1).map
            (fun q => { q with textTerms := q.textTerms ++ [p] })) ∧
    (∀ (now : Date) (op v : Str), op ≠ [] →
        (∀ c ∈ op, c ≠ dq ∧ c ≠ sq ∧ c ≠ ' ') → ':' ∉ op → dq ∉ v →
        Parse now (op ++ ':' :: dq :: v ++ [dq]) =
          some (applyOpValue now emptyQuery (goToLower op) v
            (op ++ ':' :: dq :: v ++ [dq]))) := by
  refine ⟨?_, ?_, ?_⟩
  · intro now p hne hp
    rw [Parse_single_token now _ _ (tokenize_quoted_phrase p hne hp),
      parseToken_quoted_phrase now emptyQuery p hne]
    rfl
  · intro now s1 p hs1 hch hpne hp
    unfold Parse
    rw [tokenize_plain_then_quoted s1 p hs1 hch hpne hp]
    cases h1 : parseToken now emptyQuery s1 with
    | none => simp [List.foldlM, h1]
    | some q1 =>
      simp [List.foldlM, h1]
      exact parseToken_quoted_phrase now q1 p hpne
  · intro now op v hop hopch hopc hv
    rw [Parse_single_token now _ _ (tokenize_op_quoted op v hop hopch hopc hv)]
    have hhd : (op ++ ':' :: dq :: v ++ [dq]).head? ≠ some dq := by
      cases op with
      | nil => exact absurd rfl hop
      | cons c rest =>
        have := (hopch c (List.mem_cons_self c rest)).1
        simp [this]
    unfold parseToken
    rw [if_neg (fun hq => hhd hq.1)]
    rw [show (op ++ ':' :: dq :: v ++ [dq] : Str) = op ++ ':' :: dq :: (v ++ [dq]) by simp]
    rw [splitFirstColon_append op (dq :: (v ++ [dq])) hopc]
    simp only [stripValueQuotes_quoted v]

/-- Claim C6 witness: the quoted phrase "a:b" is a single text term; in
the mixed query from:bob followed by the quoted phrase "re: notes" the
phrase is one text term alongside the from filter; and subject:"foo: bar"
puts "foo: bar" (colon, space and all) into the subject filter. -/
theorem claim_C6_witness :
    Parse clock0 (dq :: "a:b".toList ++ [dq]) =
      some { emptyQuery with textTerms := ["a:b".toList] } ∧
    Parse clock0 ("from:bob".toList ++ ' ' :: dq :: "re: notes".toList ++ [dq]) =
      some { emptyQuery with fromAddrs := ["bob".toList], textTerms := ["re: notes".toList] } ∧
    Parse clock0 ("subject".toList ++ ':' :: dq :: "foo: bar".toList ++ [dq]) =
      some { emptyQuery with subjectTerms := ["foo: bar".toList] } :=
  ⟨claim_C6.1 clock0 "a:b".toList (by decide) (by decide),
   (claim_C6.2.1 clock0 "from:bob".toList "re: notes".toList (by decide) (by decide)
     (by decide) (by decide)).trans rfl,
   (claim_C6.2.2 clock0 "subject".toList "foo: bar".toList (by decide) (by decide)
     (by decide) (by decide)).trans rfl⟩

/-- Claim C10, counterexample: an unrecognized operator can crash `Parse`
rather than fall through to a text term — on the query consisting of the
token zzz: followed by one double quote, the value slice
`value[1:len(value)-1]` is `value[1:0]` and Go panics; the model returns
`none`. -/
theorem claim_C10_counterexample :
    Parse clock0 ("zzz:".toList ++ [dq]) = none := rfl

/-- Claim C10 (amended): for every token `op:value` whose lowered operator
is not among the recognized ones and whose value is not the single
double-quote character (the panicking edge), `Parse`'s token step appends
the entire token unchanged to the text terms — the token is neither dropped
nor rejected. -/
theorem claim_C10 (now : Date) (q : Query) (op value : Str)
    (hopc : ':' ∉ op) (hhead : (op ++ ':' :: value).head? ≠ some dq)
    (hrec : goToLower op ∉ recognizedOps) (hval : value ≠ [dq]) :
    parseToken now q (op ++ ':' :: value) =
      some { q with textTerms := q.textTerms ++ [op ++ ':' :: value] } :=
  parseToken_unknown_op now q op value hopc hhead hrec hval

/-- Claim C10 witness: the amended statement at the concrete token
zzz:abc. -/
theorem claim_C10_witness :
    parseToken clock0 emptyQuery ("zzz".toList ++ ':' :: "abc".toList) =
      some { emptyQuery with textTerms := ["zzz".toList ++ ':' :: "abc".toList] } :=
  claim_C10 clock0 emptyQuery "zzz".toList "abc".toList (by decide) (by decide)
    (by decide) (by decide)

end Search

namespace Sync

theorem pageLoop_expired_iff (env : Env) (sourceID syncID : Nat)
    (labelMap : String → Option Nat) (startHID : Nat) :
    ∀ (pages : List (Except GmailErr HistoryResponse)) (pt : String)
      (cp : Checkpoint) (bytes : Nat),
    ((pageLoop env sourceID syncID labelMap startHID pages pt cp bytes).2 =
        .error .historyExpired ↔ firstHistoryError pages = some .notFound) ∧
    ((pageLoop env sourceID syncID labelMap startHID pages pt cp bytes).2 =
        .error .historyExpired →
      Eff.failSync syncID "history too old" ∈
        (pageLoop env sourceID syncID labelMap startHID pages pt cp bytes).1) := by
  intro pages
  induction pages with
  | nil =>
    intro pt cp bytes
    constructor
    · simp [pageLoop, firstHistoryError]
    · intro h
      simp [pageLoop] at h
  | cons resp rest ih =>
    intro pt cp bytes
    match resp with
    | .error .notFound =>
      constructor
      · simp [pageLoop, firstHistoryError]
      · intro _
        simp [pageLoop]
    | .error (.other m) =>
      constructor
      · simp [pageLoop, firstHistoryError]
      · intro h
        simp [pageLoop] at h
    | .ok page =>
      by_cases he : page.nextPageToken = ""
      · constructor
        · simp [pageLoop, he, firstHistoryError]
        · intro h
          simp [pageLoop, he] at h
      · have hrec := ih page.nextPageToken
          { (page.history.foldl (processRecord env sourceID labelMap) ([], cp, bytes)).2.1 with
            pageToken := page.nextPageToken }
          (page.history.foldl (processRecord env sourceID labelMap) ([], cp, bytes)).2.2
        constructor
        · rw [show (pageLoop env sourceID syncID labelMap startHID (.ok page :: rest)
              pt cp bytes).2 =
            (pageLoop env sourceID syncID labelMap startHID rest page.nextPageToken
              { (page.history.foldl (processRecord env sourceID labelMap)
                  ([], cp, bytes)).2.1 with pageToken := page.nextPageToken }
              (page.history.foldl (processRecord env sourceID labelMap)
                ([], cp, bytes)).2.2).2 from by
            simp [pageLoop, he]]
          rw [show firstHistoryError (Except.ok page :: rest) = firstHistoryError rest from by
            simp [firstHistoryError, he]]
          exact hrec.1
        · intro h
          rw [show (pageLoop env sourceID syncID labelMap startHID (.ok page :: rest)
              pt cp bytes).2 =
            (pageLoop env sourceID syncID labelMap startHID rest page.nextPageToken
              { (page.history.foldl (processRecord env sourceID labelMap)
                  ([], cp, bytes)).2.1 with pageToken := page.nextPageToken }
              (page.history.foldl (processRecord env sourceID labelMap)
                ([], cp, bytes)).2.2).2 from by
            simp [pageLoop, he]] at h
          have hm := hrec.2 h
          rw [show (pageLoop env sourceID syncID labelMap startHID (.ok page :: rest)
              pt cp bytes).1 =
            (Eff.listHistory startHID pt ::
              (page.history.foldl (processRecord env sourceID labelMap) ([], cp, bytes)).1 ++
              [.updateSyncCheckpoint syncID
                { (page.history.foldl (processRecord env sourceID labelMap)
                    ([], cp, bytes)).2.1 with pageToken := page.nextPageToken }]) ++
            (pageLoop env sourceID syncID labelMap startHID rest page.nextPageToken
              { (page.history.foldl (processRecord env sourceID labelMap)
                  ([], cp, bytes)).2.1 with pageToken := page.nextPageToken }
              (page.history.foldl (processRecord env sourceID labelMap)
                ([], cp, bytes)).2.2).1 from by
            simp [pageLoop, he]]
          exact List.mem_append.mpr (Or.inr hm)

/-- Claim C2: incremental sync returns the distinguished `ErrHistoryExpired`
exactly when the history listing hits a `NotFoundError`; in that case the
run is marked failed with reason "history too old", and no other
`ListHistory` error produces the sentinel. -/
theorem claim_C2 (env : Env) (email : String) :
    ((incremental env email).2 = .error .historyExpired →
      ∃ syncID, Eff.failSync syncID "history too old" ∈ (incremental env email).1) ∧
    ((incremental env email).2 = .error .historyExpired →
      firstHistoryError env.historyPages = some .notFound) ∧
    (∀ (src : Source) (c : String) (n syncID : Nat) (prof : Profile)
        (lm : String → Option Nat),
      env.source = .ok (some src) → src.syncCursor = some c →
      parseUint64 c = some n → env.startSync = .ok syncID →
      env.profile = .ok prof → n < prof.historyID → env.syncLabels = .ok lm →
      firstHistoryError env.historyPages = some .notFound →
      (incremental env email).2 = .error .historyExpired) := by
  have key : (incremental env email).2 = .error .historyExpired →
      (∃ syncID, Eff.failSync syncID "history too old" ∈ (incremental env email).1) ∧
      firstHistoryError env.historyPages = some .notFound := by
    intro h
    rcases hsv : env.source with msg | osrc
    · simp [incremental, hsv] at h
    · rcases osrc with _ | src
      · simp [incremental, hsv] at h
      · by_cases hcur : src.syncCursor = none ∨ src.syncCursor = some ""
        · simp [incremental, hsv, hcur] at h
        · rcases hpu : parseUint64 (src.syncCursor.getD "") with _ | startHID
          · simp [incremental, hsv, hcur, hpu] at h
          · rcases hss : env.startSync with msg | syncID
            · simp [incremental, hsv, hcur, hpu, hss] at h
            · rcases hp : env.profile with e | prof
              · simp [incremental, hsv, hcur, hpu, hss, hp] at h
              · by_cases hle : prof.historyID ≤ startHID
                · simp [incremental, hsv, hcur, hpu, hss, hp, hle] at h
                · rcases hsl : env.syncLabels with e | lm
                  · simp [incremental, hsv, hcur, hpu, hss, hp, hle, hsl] at h
                  · rcases hlp : (pageLoop env src.id syncID lm startHID
                        env.historyPages "" Checkpoint.init 0).2 with e | res
                    · simp only [incremental, hsv, hcur, hpu, hss, hp, hle, hsl,
                        if_neg, if_false, hlp] at h
                      simp [hlp] at h
                      have he : e = SyncErr.historyExpired := by simp_all
                      subst he
                      have hiff := (pageLoop_expired_iff env src.id syncID lm startHID
                        env.historyPages "" Checkpoint.init 0)
                      refine ⟨⟨syncID, ?_⟩, hiff.1.mp hlp⟩
                      have hmem := hiff.2 hlp
                      simp [incremental, hsv, hcur, hpu, hss, hp, hle, hsl, hlp, hmem]
                    · simp [incremental, hsv, hcur, hpu, hss, hp, hle, hsl, hlp] at h
  refine ⟨fun h => (key h).1, fun h => (key h).2, ?_⟩
  intro src c n syncID prof lm hsrc hc hn hss hp hlt hsl hnf
  have hcur : ¬(src.syncCursor = none ∨ src.syncCursor = some "") := by
    intro hh
    rcases hh with hh | hh
    · rw [hc] at hh
      exact Option.noConfusion hh
    · rw [hc] at hh
      have : c = "" := by injection hh
      subst this
      simp [parseUint64] at hn
  have hpu : parseUint64 (src.syncCursor.getD "") = some n := by
    rw [hc]
    exact hn
  have hle : ¬ prof.historyID ≤ n := by omega
  have hexp := (pageLoop_expired_iff env src.id syncID lm n
    env.historyPages "" Checkpoint.init 0).1.mpr hnf
  simp [incremental, hsrc, hcur, hpu, hss, hp, hle, hsl, hexp]

/-- Claim C2 witness: the sentinel at a concrete environment whose first
history reply is a 404. -/
theorem claim_C2_witness :
    (incremental envExpired "a@b").2 = .error .historyExpired :=
  (claim_C2 envExpired "a@b").2.2 ⟨1, some "1000"⟩ "1000" 1000 7 ⟨12350⟩ (fun _ => none)
    rfl rfl rfl rfl rfl (by decide) rfl rfl

/-- Claim C7: on a source whose sync cursor is null or empty, incremental
sync returns the "run full sync first" error with an empty effect trace —
no sync run is started, no store mutation happens, and the remote service
is never contacted. -/
theorem claim_C7 (env : Env) (email : String) (src : Source)
    (hsrc : env.source = .ok (some src))
    (hcur : src.syncCursor = none ∨ src.syncCursor = some "") :
    incremental env email = ([], .error (.noHistoryID email)) := by
  simp [incremental, hsrc, hcur]

/-- Claim C7 witness: the concrete cursor-less environment. -/
theorem claim_C7_witness :
    incremental envNoCursor "a@b" = ([], .error (.noHistoryID "a@b")) :=
  claim_C7 envNoCursor "a@b" ⟨1, none⟩ rfl (Or.inl rfl)

/-- Claim C8: when the stored cursor already equals the profile's history
id, the run is completed with that history id as final cursor, nothing is
listed, ingested or modified, and the summary reports zero messages
added. -/
theorem claim_C8 (env : Env) (email : String) (src : Source) (c : String)
    (n syncID : Nat) (prof : Profile)
    (hsrc : env.source = .ok (some src)) (hc : src.syncCursor = some c)
    (hn : parseUint64 c = some n) (hss : env.startSync = .ok syncID)
    (hp : env.profile = .ok prof) (heq : n = prof.historyID) :
    incremental env email =
      ([.startSync src.id "incremental", .getProfile,
        .completeSync syncID (toString prof.historyID)],
       .ok { messagesFound := 0, messagesAdded := 0, messagesUpdated := 0,
             bytesDownloaded := 0, errors := 0, finalHistoryID := prof.historyID }) := by
  have hcur : ¬(src.syncCursor = none ∨ src.syncCursor = some "") := by
    intro hh
    rcases hh with hh | hh
    · rw [hc] at hh
      exact Option.noConfusion hh
    · rw [hc] at hh
      have hce : c = "" := by injection hh
      subst hce
      simp [parseUint64] at hn
  have hpu : parseUint64 (src.syncCursor.getD "") = some n := by
    rw [hc]
    exact hn
  have hle : prof.historyID ≤ n := le_of_eq heq.symm
  simp [incremental, hsrc, hcur, hpu, hss, hp, hle]

/-- Claim C8 witness: the up-to-date environment with cursor and history id
both 12345. -/
theorem claim_C8_witness :
    incremental envUpToDate "test@example.com" =
      ([.startSync 1 "incremental", .getProfile, .completeSync 7 "12345"],
       .ok { messagesFound := 0, messagesAdded := 0, messagesUpdated := 0,
             bytesDownloaded := 0, errors := 0, finalHistoryID := 12345 }) :=
  (claim_C8 envUpToDate "test@example.com" ⟨1, some "12345"⟩ "12345" 12345 7 ⟨12345⟩
    rfl rfl rfl rfl rfl rfl).trans rfl

/-- Claim C9, counterexample: a label removal referencing a message that
does not exist locally is a complete no-op — the raw message is not
refetched and no label reconciliation happens, contrary to the claim's
"otherwise refetch and reconcile". -/
theorem claim_C9_counterexample :
    handleLabelChange envUpToDate 1 "m1" "t1" ["STARRED"] lblMap0 false = ([], true) ∧
    Eff.getMessageRaw "m1" ∉
      (handleLabelChange envUpToDate 1 "m1" "t1" ["STARRED"] lblMap0 false).1 := by
  refine ⟨rfl, ?_⟩
  intro h
  rw [show (handleLabelChange envUpToDate 1 "m1" "t1" ["STARRED"] lblMap0 false).1 =
      [] from rfl] at h
  exact List.not_mem_nil _ h

/-- Claim C9 (amended): during incremental label-change handling, a missing
message is fetched and ingested only for a label addition; a label removal
on a missing message is a no-op; for an existing message (addition or
removal) the raw message is refetched and the full label set reconciled via
`replace_message_labels`. -/
theorem claim_C9 (env : Env) (sourceID : Nat) (messageID threadID : String)
    (gl : List String) (lm : String → Option Nat) :
    (env.msgExists messageID = none →
      handleLabelChange env sourceID messageID threadID gl lm false = ([], true)) ∧
    (∀ raw : RawMessage, env.msgExists messageID = none →
      env.getRaw messageID = .ok raw →
      (handleLabelChange env sourceID messageID threadID gl lm true).1 =
        [.getMessageRaw messageID, .ingest sourceID raw.id threadID]) ∧
    (∀ (internalID : Nat) (raw : RawMessage) (isAdd : Bool),
      env.msgExists messageID = some internalID →
      env.getRaw messageID = .ok raw →
      handleLabelChange env sourceID messageID threadID gl lm isAdd =
        ([.getMessageRaw messageID,
          .replaceMessageLabels internalID (raw.labelIDs.filterMap lm)], true)) := by
  refine ⟨?_, ?_, ?_⟩
  · intro hex
    simp [handleLabelChange, hex]
  · intro raw hex hraw
    simp [handleLabelChange, hex, hraw]
  · intro internalID raw isAdd hex hraw
    simp [handleLabelChange, hex, hraw]

/-- Claim C9 witness: for the concrete environment where "m1" exists with
internal id 5, a label removal refetches and replaces the mapped label set;
for the environment where it is missing, the removal is a no-op. -/
theorem claim_C9_witness :
    handleLabelChange envLblExists 1 "m1" "t9" ["STARRED"] lblMap0 false =
      ([.getMessageRaw "m1", .replaceMessageLabels 5 [10]], true) ∧
    handleLabelChange envUpToDate 1 "m2" "t2" ["STARRED"] lblMap0 false = ([], true) :=
  ⟨((claim_C9 envLblExists 1 "m1" "t9" ["STARRED"] lblMap0).2.2 5
      ⟨"m1", "t9", ["L1", "L2"], 3⟩ false rfl rfl).trans rfl,
   (claim_C9 envUpToDate 1 "m2" "t2" ["STARRED"] lblMap0).1 rfl⟩

end Sync

namespace Deletion

theorem executeIds_counts (remote : String → ApiResult) :
    ∀ (ids : List String) (st : Execution),
    (executeIds remote ids st).succeeded =
        st.succeeded + ids.countP (fun i => (remote i).isSuccess) ∧
    (executeIds remote ids st).failed =
        st.failed + ids.countP (fun i => !(remote i).isSuccess) ∧
    (executeIds remote ids st).failedIds =
        st.failedIds ++ ids.filter (fun i => !(remote i).isSuccess) ∧
    (executeIds remote ids st).lastProcessedIndex =
        st.lastProcessedIndex + ids.length := by
  intro ids
  induction ids with
  | nil =>
    intro st
    simp [executeIds]
  | cons i rest ih =>
    intro st
    have hstep := ih (execStep remote st i)
    rw [show executeIds remote (i :: rest) st =
      executeIds remote rest (execStep remote st i) from rfl]
    have e1 : (execStep remote st i).succeeded =
        st.succeeded + (if (remote i).isSuccess then 1 else 0) := by
      rcases hr : remote i with _ | _ | msg <;> simp [execStep, hr, ApiResult.isSuccess]
    have e2 : (execStep remote st i).failed =
        st.failed + (if (remote i).isSuccess then 0 else 1) := by
      rcases hr : remote i with _ | _ | msg <;> simp [execStep, hr, ApiResult.isSuccess]
    have e3 : (execStep remote st i).failedIds =
        st.failedIds ++ (if (remote i).isSuccess then [] else [i]) := by
      rcases hr : remote i with _ | _ | msg <;> simp [execStep, hr, ApiResult.isSuccess]
    have e4 : (execStep remote st i).lastProcessedIndex =
        st.lastProcessedIndex + 1 := by
      rcases hr : remote i with _ | _ | msg <;> simp [execStep, hr]
    refine ⟨?_, ?_, ?_, ?_⟩
    · rw [hstep.1, e1, List.countP_cons]
      cases hsucc : (remote i).isSuccess <;> simp [hsucc] <;> omega
    · rw [hstep.2.1, e2, List.countP_cons]
      cases hsucc : (remote i).isSuccess <;> simp [hsucc] <;> omega
    · rw [hstep.2.2.1, e3, List.filter_cons]
      cases hsucc : (remote i).isSuccess <;> simp [hsucc]
    · rw [hstep.2.2.2, e4]
      simp [List.length_cons]
      omega

/-- Claim C3: in a manifest execution, an id whose remote call returns ok
or `NotFoundError` counts toward `succeeded` (404 is a success), every
other error increments `failed` and appends the id to `failed_ids`, and the
final status is `completed` exactly when at least one id succeeded and
`failed` exactly when none did. -/
theorem claim_C3 (remote : String → ApiResult) (remoteIds : List String) :
    (execute remote remoteIds).1.succeeded =
        remoteIds.countP (fun i => (remote i).isSuccess) ∧
    (execute remote remoteIds).1.failed =
        remoteIds.countP (fun i => !(remote i).isSuccess) ∧
    (execute remote remoteIds).1.failedIds =
        remoteIds.filter (fun i => !(remote i).isSuccess) ∧
    ApiResult.notFound.isSuccess = true ∧
    ((execute remote remoteIds).2 = .completed ↔
      1 ≤ (execute remote remoteIds).1.succeeded) ∧
    ((execute remote remoteIds).2 = .failed ↔
      (execute remote remoteIds).1.succeeded = 0) := by
  have h := executeIds_counts remote remoteIds Execution.init
  have hfin : ∀ st : Execution,
      (finalStatus st = Status.completed ↔ 1 ≤ st.succeeded) ∧
      (finalStatus st = Status.failed ↔ st.succeeded = 0) := by
    intro st
    unfold finalStatus
    by_cases hs : 1 ≤ st.succeeded
    · simp [hs]
      omega
    · simp [hs]
      omega
  refine ⟨?_, ?_, ?_, rfl, ?_, ?_⟩
  · simpa [execute, Execution.init] using h.1
  · simpa [execute, Execution.init] using h.2.1
  · simpa [execute, Execution.init] using h.2.2.1
  · exact (hfin (executeIds remote remoteIds Execution.init)).1
  · exact (hfin (executeIds remote remoteIds Execution.init)).2

end Deletion

namespace RateLimit

theorem throttle_until_mono (rl : RateLimiter) (now d : Int) :
    rl.throttledUntil ≤ (throttle rl now d).throttledUntil := by
  simp only [throttle]
  split <;> omega

theorem throttleAll_until_mono (calls : List (Int × Int)) :
    ∀ rl : RateLimiter, rl.throttledUntil ≤ (throttleAll rl calls).throttledUntil := by
  induction calls with
  | nil =>
    intro rl
    simp [throttleAll]
  | cons cl rest ih =>
    intro rl
    calc rl.throttledUntil ≤ (throttle rl cl.1 cl.2).throttledUntil :=
          throttle_until_mono rl cl.1 cl.2
      _ ≤ (throttleAll (throttle rl cl.1 cl.2) rest).throttledUntil := ih _
      _ = (throttleAll rl (cl :: rest)).throttledUntil := rfl

/-- Claim C4: a `Throttle` call never moves the throttle expiry earlier;
it strictly extends the window exactly when `now + d` is past the current
expiry; and along any sequence of `Throttle` calls the expiry never
decreases. -/
theorem claim_C4 (rl : RateLimiter) (now d : Int) (calls : List (Int × Int)) :
    rl.throttledUntil ≤ (throttle rl now d).throttledUntil ∧
    (rl.throttledUntil < (throttle rl now d).throttledUntil ↔
      rl.throttledUntil < now + d) ∧
    rl.throttledUntil ≤ (throttleAll rl calls).throttledUntil := by
  refine ⟨throttle_until_mono rl now d, ?_, throttleAll_until_mono calls rl⟩
  simp only [throttle]
  split <;> constructor <;> omega

end RateLimit

namespace Mime

/-- Claim C5: if the Date header parses to a non-zero time then the stored
`sent_at` is exactly that parse, which carries the same instant as the raw
format result and is in UTC (offset zero); if the parse yields the zero
time, `sent_at` equals the message's `internal_date`. -/
theorem claim_C5 (formats : List (String → Option MTime)) (s : String)
    (internalDate : MTime) :
    (parseDate formats s ≠ zeroTime →
      sentAtOf formats s internalDate = parseDate formats s ∧
      (parseDate formats s).offsetMinutes = 0 ∧
      ∀ t, firstParse formats s = some t →
        (parseDate formats s).unix = t.unix) ∧
    (parseDate formats s = zeroTime →
      sentAtOf formats s internalDate = internalDate) := by
  constructor
  · intro hnz
    refine ⟨by simp [sentAtOf, hnz], ?_, ?_⟩
    · unfold parseDate at hnz ⊢
      match hf : firstParse formats s with
      | some t => simp [toUTC]
      | none => simp [hf] at hnz
    · intro t ht
      unfold parseDate
      simp [ht, toUTC]
  · intro hz
    simp [sentAtOf, hz]

/-- Claim C5 witness: with the one-entry format list, "D" parses to instant
1000 at offset -420 and `sent_at` is the UTC-normalized instant; the
unparseable "X" falls back to the internal date. -/
theorem claim_C5_witness :
    sentAtOf fmts0 "D" ⟨5, 0⟩ = ⟨1000, 0⟩ ∧
    sentAtOf fmts0 "X" ⟨5, 0⟩ = ⟨5, 0⟩ :=
  ⟨(((claim_C5 fmts0 "D" ⟨5, 0⟩).1 (by decide)).1).trans rfl,
   (claim_C5 fmts0 "X" ⟨5, 0⟩).2 (by decide)⟩

end Mime

end MsgVault
